import Mathlib

/-!
Shallow embedding of the simple_social HTTP server (Rust sources
src/lib.rs, src/server.rs, src/bin/main.rs) and proofs about its
routing, mounting, thread-pool and serve-loop behaviour.

Conventions of the embedding:
  * Rust byte slices are modelled as List Nat, each element a byte value.
  * String bytes (Rust str::as_bytes) are the UTF-8 encoding, computed by
    utf8Bytes below.
  * Function pointers (HandlerFn) carry no observable structure in the
    source beyond identity, so they are modelled as Nat identifiers.
  * The mpsc channel is modelled as a FIFO list of messages together with
    a closed flag; send fails exactly when the channel is closed, which is
    how mpsc::Sender::send behaves once the receiving side is gone.
-/

/-- The HTTP methods of server.rs (enum Method). -/
inductive Method where
  | Get
  | Post
  | Delete
  | Put
deriving DecidableEq, Repr

/-- Display impl for Method in server.rs. -/
def Method.str : Method → String
  | .Put => "PUT"
  | .Get => "GET"
  | .Delete => "DELETE"
  | .Post => "POST"

/-- Standard UTF-8 encoding of one character, as byte values.
Mirrors what Rust str::as_bytes yields per char. -/
def utf8Bytes (c : Char) : List Nat :=
  let n := c.toNat
  if n < 0x80 then
    [n]
  else if n < 0x800 then
    [0xC0 + n / 64, 0x80 + n % 64]
  else if n < 0x10000 then
    [0xE0 + n / 4096, 0x80 + (n / 64) % 64, 0x80 + n % 64]
  else
    [0xF0 + n / 262144, 0x80 + (n / 4096) % 64, 0x80 + (n / 64) % 64,
     0x80 + n % 64]

/-- The UTF-8 bytes of a whole string (Rust str::as_bytes). -/
def strBytes (s : String) : List Nat :=
  s.data.flatMap utf8Bytes

/-- struct Handler of server.rs: method, path, and a handler function
pointer (modelled by a Nat identifier). -/
structure Handler where
  method : Method
  path : String
  handler : Nat
deriving DecidableEq, Repr

/-- Handler::http_str of server.rs: the literal request-line that the
route matches, formatted as METHOD SP PATH SP HTTP/1.1 CRLF. -/
def Handler.http_str (h : Handler) : String :=
  h.method.str ++ " " ++ h.path ++ " HTTP/1.1\r\n"

/-- Handler::check of server.rs: true when the request-line bytes of the
route are a byte-for-byte prefix of the read buffer. -/
def Handler.check (h : Handler) (buffer : List Nat) : Bool :=
  (strBytes h.http_str).isPrefixOf buffer

/-- The route lookup performed in Server::run, line 201 of server.rs:
first registered route whose check accepts the buffer. -/
def findRoute (eps : List Handler) (buffer : List Nat) : Option Handler :=
  eps.find? (fun x => Handler.check x buffer)

/-- struct Route of server.rs (used by Router). -/
structure Route where
  method : Method
  path : String
  handler : Nat
deriving DecidableEq, Repr

/-- struct Router of server.rs: an ordered list of routes. -/
structure Router where
  end_points : List Route
deriving DecidableEq, Repr

/-- struct Server of server.rs: address, ordered handler list, pool size. -/
structure Server where
  addr : String
  end_points : List Handler
  pool_size : Nat
deriving DecidableEq, Repr

/-- Server::new of server.rs: empty route list, pool size clamped to at
least 2 by pool_size.max(2). -/
def Server.new (addr : String) (pool_size : Nat) : Server :=
  { addr := addr, end_points := [], pool_size := Nat.max pool_size 2 }

/-- Rust str::split on the slash separator, on character lists: splits at
every slash, keeping empty segments, as Rust does. -/
def splitSlash : List Char → List (List Char)
  | [] => [[]]
  | c :: cs =>
    if c = '/' then [] :: splitSlash cs
    else
      match splitSlash cs with
      | [] => [[c]]
      | s :: ss => (c :: s) :: ss

/-- Rust slice join with the slash separator, on character lists. -/
def joinSlash : List (List Char) → List Char
  | [] => []
  | [s] => s
  | s :: rest => s ++ '/' :: joinSlash rest

/-- The path rewriting inside Server::mount, lines 168 to 173 of
server.rs: split the mount point and the sub-route path on slashes,
concatenate, drop empty segments, join with slashes and prepend one
leading slash. -/
def mountPath (sup sub : String) : String :=
  let super_paths := splitSlash sup.data
  let base_paths := splitSlash sub.data
  let paths := (super_paths ++ base_paths).filter (fun s => !s.isEmpty)
  ⟨'/' :: joinSlash paths⟩

/-- Server::mount of server.rs: append, for every route of the sub
router, a handler with the rewritten path and the same method and
handler function. -/
def Server.mount (s : Server) (path : String) (router : Router) : Server :=
  { s with
    end_points := s.end_points ++ router.end_points.map
      (fun ep => { method := ep.method,
                   path := mountPath path ep.path,
                   handler := ep.handler }) }

/-- Status line constant STATUS_NOT_FOUND of server.rs. -/
def STATUS_NOT_FOUND : String := "HTTP/1.1 404 NOT_FOUND"

/-- The 404 response built in Server::run, lines 207 to 212 of
server.rs: status line, the malformed length header carrying the byte
length of the body, a blank line, then the body verbatim. -/
def notFoundResponse (content : String) : String :=
  STATUS_NOT_FOUND ++ "\r\nContent=Length: " ++
    toString (strBytes content).length ++ "\r\n\r\n" ++ content

/-- Observable outcome of handling one accepted connection in
Server::run: either a handler is submitted to the pool, or a fallback
response is written synchronously on the accept thread. -/
inductive ConnResult where
  | dispatched (handler : Nat)
  | fallback (response : String)
deriving DecidableEq, Repr

/-- One event on the listening socket: an accept error, or an accepted
connection whose read yields an error or a buffer. -/
inductive NetEvent where
  | acceptError (e : String)
  | conn (readResult : Except String (List Nat))
deriving Repr

/-- The per-connection body of Server::run, lines 201 to 216 of
server.rs. The fallback resource read (fs::read_to_string of
static/404.html) happens here, inside the loop, only on the unmatched
branch; its result is the fallbackRes argument. -/
def handleConn (eps : List Handler) (fallbackRes : Except String String)
    (buf : List Nat) : Except String ConnResult :=
  match findRoute eps buf with
  | some ep => .ok (ConnResult.dispatched ep.handler)
  | none =>
    match fallbackRes with
    | .error e => .error e
    | .ok content => .ok (ConnResult.fallback (notFoundResponse content))

/-- The accept loop of Server::run, lines 196 to 217 of server.rs:
process events in order; an accept error, a read error, or a fallback
read error stops the loop at once (the question-mark operator returns
the error). Returns the results of the connections that were handled
and the terminating error, if any. -/
def serveLoop (eps : List Handler) (fallbackRes : Except String String) :
    List NetEvent → List ConnResult × Option String
  | [] => ([], none)
  | ev :: rest =>
    match ev with
    | .acceptError e => ([], some e)
    | .conn (.error e) => ([], some e)
    | .conn (.ok buf) =>
      match handleConn eps fallbackRes buf with
      | .error e => ([], some e)
      | .ok r =>
        let p := serveLoop eps fallbackRes rest
        (r :: p.1, p.2)

/-- Server::run of server.rs, lines 192 to 219: bind first (a bind
error aborts startup), then serve. The fallback resource is not touched
at startup; it is read only inside the loop, by handleConn. -/
def Server.run (s : Server) (bindRes : Except String Unit)
    (fallbackRes : Except String String) (events : List NetEvent) :
    Except String (List ConnResult × Option String) :=
  match bindRes with
  | .error e => .error e
  | .ok _ => .ok (serveLoop s.end_points fallbackRes events)

/-- enum Message of lib.rs: a job (modelled by a Nat identifier) or the
terminate signal. -/
inductive Message where
  | NewJob (job : Nat)
  | Terminate
deriving DecidableEq, Repr

/-- The mpsc channel of lib.rs, as seen from the sender: a FIFO queue of
messages plus a closed flag. Sending fails exactly when the receiving
side is gone, never because of capacity: the queue is unbounded. -/
structure Channel where
  queue : List Message
  closed : Bool
deriving DecidableEq, Repr

/-- mpsc::Sender::send as used in lib.rs: enqueue at the back, failing
only when the channel is closed. -/
def Channel.send (c : Channel) (m : Message) : Option Channel :=
  if c.closed then none else some { c with queue := c.queue ++ [m] }

/-- struct Worker of lib.rs: an id and an optional join handle. -/
structure Worker where
  id : Nat
  thread : Option Unit
deriving DecidableEq, Repr

/-- struct ThreadPool of lib.rs: the workers and the sending side of the
shared channel. -/
structure ThreadPool where
  workers : List Worker
  channel : Channel
deriving DecidableEq, Repr

/-- ThreadPool::new of lib.rs, lines 19 to 31: spawn one worker per id
in 0..size, all sharing one channel. There is no clamp and no
assertion: size 0 yields no workers at all. -/
def ThreadPool.new (size : Nat) : ThreadPool :=
  { workers := (List.range size).map (fun id => { id := id, thread := some () }),
    channel := { queue := [], closed := false } }

/-- ThreadPool::execute of lib.rs, lines 33 to 39: wrap the job in a
NewJob message and send it. The source unwraps the send result; here
the failure case surfaces as none. -/
def ThreadPool.execute (p : ThreadPool) (job : Nat) : Option ThreadPool :=
  (p.channel.send (Message.NewJob job)).map (fun c => { p with channel := c })

/-- The pool construction at line 194 of server.rs: run builds the pool
from the pool size stored in the server. -/
def Server.runPool (s : Server) : ThreadPool :=
  ThreadPool.new s.pool_size

/-- One observable action of the Drop impl of ThreadPool in lib.rs. -/
inductive DropEvent where
  | sendTerminate
  | joinWorker (id : Nat)
deriving DecidableEq, Repr

/-- The Drop impl of ThreadPool, lines 42 to 59 of lib.rs, as the
sequence of its observable actions: first one Terminate send per element
of the workers vector, then, in worker-index order, a join of each
worker whose thread handle is still present (worker.thread.take()). -/
def ThreadPool.dropEvents (p : ThreadPool) : List DropEvent :=
  (p.workers.map (fun _ => DropEvent.sendTerminate)) ++
    (p.workers.filterMap (fun w => w.thread.map (fun _ => DropEvent.joinWorker w.id)))

/-- State of the pool and its channel during execution: the pending
message queue, the jobs submitted so far in order, and the executions
performed so far as pairs of worker id and job id, in order. -/
structure PoolState where
  queue : List Message
  submitted : List Nat
  executed : List (Nat × Nat)
deriving DecidableEq, Repr

/-- The state right after ThreadPool::new: nothing queued, nothing
submitted, nothing executed. -/
def PoolState.init : PoolState :=
  { queue := [], submitted := [], executed := [] }

/-- The job identifiers carried by the NewJob messages of a queue, in
queue order. -/
def jobsOf : List Message → List Nat
  | [] => []
  | Message.NewJob j :: rest => j :: jobsOf rest
  | Message.Terminate :: rest => jobsOf rest

/-- Interleaved execution of a pool with N workers, from lib.rs:
ThreadPool::execute enqueues a NewJob message at the back (submit); the
worker loop of Worker::new, lines 71 to 80, takes the front message
under the shared mutex, so exactly one worker w < N removes it, and
either runs the job (runJob) or exits on Terminate (term). -/
inductive PoolStep (N : Nat) : PoolState → PoolState → Prop where
  | submit (j : Nat) (s : PoolState) :
      PoolStep N s { queue := s.queue ++ [Message.NewJob j],
                     submitted := s.submitted ++ [j],
                     executed := s.executed }
  | runJob (w j : Nat) (rest : List Message) (s : PoolState)
      (hw : w < N) (hq : s.queue = Message.NewJob j :: rest) :
      PoolStep N s { queue := rest,
                     submitted := s.submitted,
                     executed := s.executed ++ [(w, j)] }
  | term (w : Nat) (rest : List Message) (s : PoolState)
      (hw : w < N) (hq : s.queue = Message.Terminate :: rest) :
      PoolStep N s { queue := rest,
                     submitted := s.submitted,
                     executed := s.executed }

/-- Reachability by any interleaving of pool steps. -/
def PoolReach (N : Nat) : PoolState → PoolState → Prop :=
  Relation.ReflTransGen (PoolStep N)

/-- The sequence of events on the listening socket that is fatal for the
serve loop in the position where it occurs: an accept error or a read
error, carrying the propagated error. -/
def eventFatal : NetEvent → Option String
  | .acceptError e => some e
  | .conn (.error e) => some e
  | .conn (.ok _) => none

/-! Helper lemmas. -/

theorem jobsOf_append (l1 l2 : List Message) :
    jobsOf (l1 ++ l2) = jobsOf l1 ++ jobsOf l2 := by
  induction l1 with
  | nil => rfl
  | cons m rest ih => cases m <;> simp [jobsOf, ih]

theorem map_const_replicate {α β : Type} (b : β) (l : List α) :
    l.map (fun _ => b) = List.replicate l.length b := by
  induction l with
  | nil => rfl
  | cons a l ih => simp [List.replicate, ih]

theorem filterMap_some_comp {α β : Type} (f : α → β) (l : List α) :
    l.filterMap (fun a => some (f a)) = l.map f := by
  induction l with
  | nil => rfl
  | cons a l ih => simp [List.filterMap_cons, ih]

/-- Execution bookkeeping invariant: the submitted jobs are exactly the
executed jobs followed by the jobs still queued, and every recorded
execution was performed by one of the N workers. -/
theorem pool_invariant {N : Nat} {s t : PoolState} (h : PoolReach N s t)
    (hs : s.executed.map Prod.snd ++ jobsOf s.queue = s.submitted)
    (hw : ∀ wj ∈ s.executed, wj.1 < N) :
    t.executed.map Prod.snd ++ jobsOf t.queue = t.submitted ∧
      ∀ wj ∈ t.executed, wj.1 < N := by
  induction h with
  | refl => exact ⟨hs, hw⟩
  | tail hab hbc ih =>
    obtain ⟨ih1, ih2⟩ := ih
    cases hbc with
    | submit j b =>
      refine ⟨?_, ih2⟩
      simp only [jobsOf_append, jobsOf]
      rw [← List.append_assoc, ih1]
    | runJob w j rest b hwlt hq =>
      constructor
      · rw [hq] at ih1
        simp only [jobsOf] at ih1
        simp only [List.map_append]
        rw [List.append_assoc]
        simpa using ih1
      · intro wj hwj
        rcases List.mem_append.mp hwj with hmem | hmem
        · exact ih2 wj hmem
        · rcases List.mem_singleton.mp hmem with rfl
          exact hwlt
    | term w rest b hwlt hq =>
      refine ⟨?_, ih2⟩
      rw [hq] at ih1
      simpa [jobsOf] using ih1

theorem splitSlash_ne_nil (l : List Char) : splitSlash l ≠ [] := by
  cases l with
  | nil => simp [splitSlash]
  | cons c cs =>
    simp only [splitSlash]
    split
    · simp
    · split <;> simp

theorem no_slash_of_mem_splitSlash (l : List Char) :
    ∀ s ∈ splitSlash l, '/' ∉ s := by
  induction l with
  | nil =>
    intro s hs
    simp [splitSlash] at hs
    simp [hs]
  | cons c cs ih =>
    intro s hs
    simp only [splitSlash] at hs
    by_cases hc : c = '/'
    · rw [if_pos hc] at hs
      rcases List.mem_cons.mp hs with h | h
      · simp [h]
      · exact ih s h
    · rw [if_neg hc] at hs
      cases hsp : splitSlash cs with
      | nil => exact absurd hsp (splitSlash_ne_nil cs)
      | cons s0 ss =>
        rw [hsp] at hs
        rcases List.mem_cons.mp hs with h | h
        · subst h
          intro hmem
          rcases List.mem_cons.mp hmem with h2 | h2
          · exact hc h2.symm
          · exact ih s0 (by rw [hsp]; exact List.mem_cons_self _ _) h2
        · exact ih s (by rw [hsp]; exact List.mem_cons.mpr (Or.inr h))

theorem splitSlash_append_slash (l : List Char) :
    splitSlash (l ++ ['/']) = splitSlash l ++ [[]] := by
  induction l with
  | nil => simp [splitSlash]
  | cons c cs ih =>
    by_cases hc : c = '/'
    · simp [splitSlash, if_pos hc, ih]
    · simp only [List.cons_append, splitSlash, if_neg hc]
      cases hsp : splitSlash cs with
      | nil => exact absurd hsp (splitSlash_ne_nil cs)
      | cons s0 ss => simp only [List.append_eq]; rw [ih, hsp]; simp

theorem chain'_cons_of_no_slash (l : List Char) (hl : ∀ c ∈ l, c ≠ '/')
    (a : Char) :
    List.Chain' (fun x y => ¬(x = '/' ∧ y = '/')) (a :: l) := by
  induction l generalizing a with
  | nil => simp
  | cons c cs ih =>
    refine List.chain'_cons.mpr ⟨?_, ih (fun d hd => hl d (by simp [hd])) c⟩
    intro hcon
    exact hl c (by simp) hcon.2

theorem chain'_slash_join (segs : List (List Char))
    (h : ∀ s ∈ segs, s ≠ [] ∧ '/' ∉ s) :
    List.Chain' (fun x y => ¬(x = '/' ∧ y = '/')) ('/' :: joinSlash segs) := by
  induction segs with
  | nil => simp [joinSlash]
  | cons s ss ih =>
    cases ss with
    | nil =>
      have hs := h s (by simp)
      show List.Chain' _ ('/' :: s)
      exact chain'_cons_of_no_slash s (fun c hc heq => hs.2 (heq ▸ hc)) '/'
    | cons s2 rest =>
      have hs := h s (by simp)
      have hjoin : joinSlash (s :: s2 :: rest) =
          s ++ '/' :: joinSlash (s2 :: rest) := rfl
      rw [hjoin]
      have hsplit : '/' :: (s ++ '/' :: joinSlash (s2 :: rest)) =
          ('/' :: s) ++ ('/' :: joinSlash (s2 :: rest)) := by simp
      rw [hsplit]
      apply List.Chain'.append
      · exact chain'_cons_of_no_slash s (fun c hc heq => hs.2 (heq ▸ hc)) '/'
      · exact ih (fun t ht => h t (by simp [ht]))
      · intro x hx y hy
        simp only [List.head?_cons, Option.mem_def, Option.some.injEq] at hy
        obtain ⟨hne, hx_eq⟩ := List.mem_getLast?_eq_getLast hx
        intro hcon
        cases hs0 : s with
        | nil => exact hs.1 hs0
        | cons d ds =>
          subst hs0
          rw [List.getLast_cons (by simp)] at hx_eq
          have hxmem : x ∈ d :: ds := hx_eq ▸ List.getLast_mem _
          exact hs.2 (hcon.1 ▸ hxmem)


/-! Claim theorems. -/

/-- Claim C1: for every ordered route list and every 1024-byte buffer,
route matching returns the first route in registration order whose
literal request-line bytes are a byte-for-byte prefix of the buffer,
returns no match exactly when no route matches, and bytes after a
matching request-line never prevent the match. -/
theorem C1_first_match (eps : List Handler) (buffer : List Nat)
    (hlen : buffer.length = 1024) :
    (∀ ep, findRoute eps buffer = some ep →
        ∃ i, ∃ hi : i < eps.length, eps.get ⟨i, hi⟩ = ep ∧
          Handler.check ep buffer = true ∧
          ∀ j, ∀ hj : j < eps.length, j < i →
            Handler.check (eps.get ⟨j, hj⟩) buffer = false) ∧
      (findRoute eps buffer = none ↔
        ∀ ep ∈ eps, Handler.check ep buffer = false) ∧
      (∀ h rest, Handler.check h (strBytes h.http_str ++ rest) = true) := by
  refine ⟨?_, ?_, ?_⟩
  · intro ep hfind
    clear hlen
    induction eps with
    | nil => simp [findRoute] at hfind
    | cons a as ih =>
      rw [findRoute] at hfind
      by_cases ha : Handler.check a buffer = true
      · simp only [List.find?, ha] at hfind
        refine ⟨0, by simp, ?_, ?_, ?_⟩
        · exact Option.some.inj hfind
        · rw [← Option.some.inj hfind]; exact ha
        · intro j hj hji; omega
      · have ha2 : Handler.check a buffer = false := by simpa using ha
        simp only [List.find?, ha2] at hfind
        obtain ⟨i, hi, hget, hcheck, hprev⟩ := ih hfind
        refine ⟨i + 1, by simpa using Nat.succ_lt_succ hi, ?_, hcheck, ?_⟩
        · exact hget
        · intro j hj hji
          cases j with
          | zero => exact ha2
          | succ k =>
            exact hprev k (Nat.lt_of_succ_lt_succ hj) (Nat.lt_of_succ_lt_succ hji)
  · rw [findRoute, List.find?_eq_none]
    simp [Bool.not_eq_true]
  · intro h rest
    simp [Handler.check]

/-- Witness for Claim C1 at a concrete route list and buffer. -/
theorem C1_witness :
    findRoute [] (List.replicate 1024 0) = none ↔
      ∀ ep ∈ ([] : List Handler),
        Handler.check ep (List.replicate 1024 0) = false :=
  (C1_first_match [] (List.replicate 1024 0) (by rw [List.length_replicate])).2.1

/-- Claim C2: in every interleaved run of a pool with N workers that
starts from the initial state and consumes all queued jobs, the executed
jobs are exactly the submitted jobs: K submissions give K executions,
each submitted job runs exactly once, none is dropped or duplicated,
and every execution is performed by one of the N workers. -/
theorem C2_exactly_once (N : Nat) (hN : 1 ≤ N) (s : PoolState)
    (hreach : PoolReach N PoolState.init s)
    (hdrained : jobsOf s.queue = []) :
    s.executed.map Prod.snd = s.submitted ∧
      (∀ j, (s.executed.map Prod.snd).count j = s.submitted.count j) ∧
      (∀ wj ∈ s.executed, wj.1 < N) := by
  obtain ⟨h1, h2⟩ := pool_invariant hreach (by rfl) (by simp [PoolState.init])
  rw [hdrained, List.append_nil] at h1
  exact ⟨h1, fun j => by rw [h1], h2⟩

/-- Witness for Claim C2 on a concrete two-step run: submit job 5, then
worker 0 executes it. -/
theorem C2_witness :
    (PoolState.mk [] [5] [(0, 5)]).executed.map Prod.snd =
      (PoolState.mk [] [5] [(0, 5)]).submitted :=
  (C2_exactly_once 1 (by decide) (PoolState.mk [] [5] [(0, 5)])
    (Relation.ReflTransGen.tail
      (Relation.ReflTransGen.single (PoolStep.submit 5 PoolState.init))
      (PoolStep.runJob 0 5 [] (PoolState.mk [Message.NewJob 5] [5] [])
        (by decide) rfl))
    (by rfl)).1

/-- Claim C3: mount appends, for each sub-route, a handler with the same
method and handler function and the path rewritten by splitting both the
mount point and the sub-route path on slashes, discarding empty
segments, and joining with single slashes behind one leading slash;
mounting the sub-path /profile under /user yields exactly /user/profile;
the result is unchanged by extra leading or trailing slashes on either
input; and the rewritten path never contains two adjacent slashes. -/
theorem C3_mount (s : Server) (pfx : String) (r : Router) :
    ((s.mount pfx r).end_points = s.end_points ++ r.end_points.map
        (fun ep => Handler.mk ep.method (mountPath pfx ep.path) ep.handler)) ∧
      mountPath "/user" "/profile" = "/user/profile" ∧
      (∀ p q : String,
        mountPath ("/" ++ p) q = mountPath p q ∧
        mountPath (p ++ "/") q = mountPath p q ∧
        mountPath p ("/" ++ q) = mountPath p q ∧
        mountPath p (q ++ "/") = mountPath p q) ∧
      (∀ p q : String,
        List.Chain' (fun x y => ¬(x = '/' ∧ y = '/')) (mountPath p q).data) := by
  refine ⟨rfl, by decide, ?_, ?_⟩
  · intro p q
    obtain ⟨pd⟩ := p
    obtain ⟨qd⟩ := q
    refine ⟨?_, ?_, ?_, ?_⟩
    · show mountPath ⟨'/' :: pd⟩ ⟨qd⟩ = mountPath ⟨pd⟩ ⟨qd⟩
      simp [mountPath, splitSlash]
    · show mountPath ⟨pd ++ ['/']⟩ ⟨qd⟩ = mountPath ⟨pd⟩ ⟨qd⟩
      simp [mountPath, splitSlash_append_slash, List.filter_append]
    · show mountPath ⟨pd⟩ ⟨'/' :: qd⟩ = mountPath ⟨pd⟩ ⟨qd⟩
      simp [mountPath, splitSlash]
    · show mountPath ⟨pd⟩ ⟨qd ++ ['/']⟩ = mountPath ⟨pd⟩ ⟨qd⟩
      simp [mountPath, splitSlash_append_slash, List.filter_append]
  · intro p q
    have hsegs : ∀ t ∈ ((splitSlash p.data ++ splitSlash q.data).filter
        (fun u => !u.isEmpty)), t ≠ [] ∧ '/' ∉ t := by
      intro t ht
      rw [List.mem_filter] at ht
      obtain ⟨hmem, hne⟩ := ht
      refine ⟨by simpa using hne, ?_⟩
      rcases List.mem_append.mp hmem with hm | hm
      · exact no_slash_of_mem_splitSlash _ t hm
      · exact no_slash_of_mem_splitSlash _ t hm
    exact chain'_slash_join _ hsegs

/-- Claim C4: dropping a freshly built pool of n workers first enqueues
exactly one terminate message per element of the workers vector, and
only then joins the worker threads, in worker-index order, each thread
exactly once; the event sequence ends only after the last join, so
teardown returns only once every worker has been joined. -/
theorem C4_shutdown (n : Nat) :
    (ThreadPool.new n).dropEvents =
        List.replicate n DropEvent.sendTerminate ++
          (List.range n).map DropEvent.joinWorker ∧
      ((ThreadPool.new n).dropEvents).count DropEvent.sendTerminate =
        (ThreadPool.new n).workers.length ∧
      ∀ i, i < n →
        ((ThreadPool.new n).dropEvents).count (DropEvent.joinWorker i) = 1 := by
  have hstruct : (ThreadPool.new n).dropEvents =
      List.replicate n DropEvent.sendTerminate ++
        (List.range n).map DropEvent.joinWorker := by
    simp only [ThreadPool.dropEvents, ThreadPool.new, List.map_map,
      List.filterMap_map]
    congr 1
    · exact (map_const_replicate DropEvent.sendTerminate (List.range n)).trans
        (by simp)
    · exact filterMap_some_comp (fun id => DropEvent.joinWorker id)
        (List.range n)
  refine ⟨hstruct, ?_, ?_⟩
  · rw [hstruct]
    rw [List.count_append]
    have h1 : (List.replicate n DropEvent.sendTerminate).count
        DropEvent.sendTerminate = n := by
      simp [List.count_replicate]
    have h2 : ((List.range n).map DropEvent.joinWorker).count
        DropEvent.sendTerminate = 0 := by
      rw [List.count_eq_zero]
      intro hmem
      obtain ⟨i, -, hcontra⟩ := List.mem_map.mp hmem
      exact DropEvent.noConfusion hcontra
    rw [h1, h2]
    simp [ThreadPool.new]
  · intro i hi
    rw [hstruct, List.count_append]
    have h1 : (List.replicate n DropEvent.sendTerminate).count
        (DropEvent.joinWorker i) = 0 := by
      rw [List.count_eq_zero]
      intro hmem
      exact DropEvent.noConfusion (List.eq_of_mem_replicate hmem)
    have h2 : ((List.range n).map DropEvent.joinWorker).count
        (DropEvent.joinWorker i) = 1 := by
      refine List.count_eq_one_of_mem ?_ ?_
      · exact List.Nodup.map (fun a b hab => DropEvent.joinWorker.inj hab)
          (List.nodup_range n)
      · exact List.mem_map_of_mem _ (List.mem_range.mpr hi)
    rw [h1, h2]

/-- Witness for Claim C4 at a pool of two workers. -/
theorem C4_witness :
    ((ThreadPool.new 2).dropEvents).count (DropEvent.joinWorker 1) = 1 :=
  (C4_shutdown 2).2.2 1 (by decide)

/-- Claim C5: a connection whose buffer matches no registered route is
answered on the accept thread, with nothing submitted to the pool, by
the response made of the 404 status line, the length header carrying
the byte length of the fallback body, a blank-line delimiter, and the
fallback body unmodified. -/
theorem C5_fallback_inline (eps : List Handler) (fb : Except String String)
    (content : String) (buf : List Nat)
    (hmatch : findRoute eps buf = none) (hfb : fb = Except.ok content) :
    handleConn eps fb buf = Except.ok (ConnResult.fallback
        (STATUS_NOT_FOUND ++ "\r\nContent=Length: " ++
          toString (strBytes content).length ++ "\r\n\r\n" ++ content)) ∧
      ∀ h, handleConn eps fb buf ≠ Except.ok (ConnResult.dispatched h) := by
  subst hfb
  constructor
  · simp [handleConn, hmatch, notFoundResponse]
  · intro h hcontra
    simp [handleConn, hmatch, notFoundResponse] at hcontra

/-- Witness for Claim C5 at an empty route list and concrete body. -/
theorem C5_witness :
    handleConn [] (Except.ok "oops") [0] = Except.ok (ConnResult.fallback
        (STATUS_NOT_FOUND ++ "\r\nContent=Length: " ++
          toString (strBytes "oops").length ++ "\r\n\r\n" ++ "oops")) :=
  (C5_fallback_inline [] (Except.ok "oops") "oops" [0] (by rfl) rfl).1

/-- Claim C6 counterexample: a pool constructed with size 0 has no
worker at all, so it does not have at least one worker able to run
jobs. -/
theorem C6_counterexample : ¬ 1 ≤ (ThreadPool.new 0).workers.length := by
  decide

/-- Claim C6 as amended: ThreadPool::new(size) creates exactly size
worker threads, with ids 0 to size-1 in order, each holding a live
thread handle on the shared queue, and the channel is open at once; in
particular size 0 yields a pool with no workers. -/
theorem C6_amended_exact_size (size : Nat) :
    (ThreadPool.new size).workers.length = size ∧
      (ThreadPool.new size).workers.map Worker.id = List.range size ∧
      (ThreadPool.new size).workers.map Worker.thread =
        List.replicate size (some ()) ∧
      (ThreadPool.new size).channel.closed = false := by
  refine ⟨by simp [ThreadPool.new], ?_, ?_, rfl⟩
  · simp only [ThreadPool.new, List.map_map]
    exact List.map_id'' (fun x => rfl) (List.range size)
  · simp only [ThreadPool.new, List.map_map]
    exact (map_const_replicate (some ()) (List.range size)).trans (by simp)

/-- Claim C7: a pool built with a given size holds exactly that many
workers; execute never adds or removes workers; and enqueueing fails
exactly when the channel is closed (pool shut down), never because of
capacity. -/
theorem C7_pool_invariants (n : Nat) (p : ThreadPool) (j : Nat)
    (c : Channel) (m : Message) :
    (ThreadPool.new n).workers.length = n ∧
      (∀ p2, ThreadPool.execute p j = some p2 → p2.workers = p.workers) ∧
      (ThreadPool.execute p j = none ↔ p.channel.closed = true) ∧
      (Channel.send c m = none ↔ c.closed = true) := by
  refine ⟨by simp [ThreadPool.new], ?_, ?_, ?_⟩
  · intro p2 h
    by_cases hc : p.channel.closed
    · simp [ThreadPool.execute, Channel.send, hc] at h
    · simp [ThreadPool.execute, Channel.send, hc] at h
      rw [← h]
  · by_cases hc : p.channel.closed <;>
      simp [ThreadPool.execute, Channel.send, hc]
  · by_cases hc : c.closed <;> simp [Channel.send, hc]

/-- Witness for Claim C7: executing a job on a fresh one-worker pool
leaves the workers unchanged. -/
theorem C7_witness :
    (ThreadPool.mk (ThreadPool.new 1).workers
        (Channel.mk [Message.NewJob 7] false)).workers =
      (ThreadPool.new 1).workers :=
  (C7_pool_invariants 0 (ThreadPool.new 1) 7 (Channel.mk [] false)
      Message.Terminate).2.1 _ rfl

/-- Claim C8: when every earlier event was a successfully handled
connection, an accept error or a read error makes the serve loop stop
with that error: the result is the same whatever events follow, so no
retry happens and no later connection is processed. -/
theorem C8_fatal_abort (eps : List Handler) (fb : Except String String)
    (good : List NetEvent) (bad : NetEvent) (e : String)
    (rest : List NetEvent)
    (hgood : ∀ ev ∈ good, ∃ buf r, ev = NetEvent.conn (Except.ok buf) ∧
        handleConn eps fb buf = Except.ok r)
    (hbad : eventFatal bad = some e) :
    (serveLoop eps fb (good ++ bad :: rest)).2 = some e ∧
      serveLoop eps fb (good ++ bad :: rest) =
        serveLoop eps fb (good ++ [bad]) := by
  induction good with
  | nil =>
    cases bad with
    | acceptError e0 =>
      simp only [eventFatal, Option.some.injEq] at hbad
      subst hbad
      exact ⟨rfl, rfl⟩
    | conn rr =>
      cases rr with
      | error e0 =>
        simp only [eventFatal, Option.some.injEq] at hbad
        subst hbad
        exact ⟨rfl, rfl⟩
      | ok buf => simp [eventFatal] at hbad
  | cons ev gs ih =>
    obtain ⟨buf, r, hev, hr⟩ := hgood ev (by simp)
    subst hev
    obtain ⟨ih1, ih2⟩ := ih (fun ev2 hm => hgood ev2 (by simp [hm]))
    refine ⟨?_, ?_⟩
    · simpa [serveLoop, hr] using ih1
    · simp [serveLoop, hr, ih2]

/-- Witness for Claim C8 at a single fatal accept error. -/
theorem C8_witness :
    (serveLoop [] (Except.ok "x") ([] ++ NetEvent.acceptError "E" :: [])).2 =
      some "E" :=
  (C8_fatal_abort [] (Except.ok "x") [] (NetEvent.acceptError "E") "E" []
    (by simp) rfl).1

/-- Claim C9 counterexample: with a failing fallback resource, run
succeeds at startup, dispatches a matching first connection, and only
aborts when an unmatched connection forces the fallback read inside the
serve loop; so the failure is not a startup error. -/
theorem C9_counterexample :
    Server.run (Server.mk "127.0.0.1:3000" [Handler.mk Method.Get "/" 0] 4)
        (Except.ok ()) (Except.error "io error")
        [NetEvent.conn (Except.ok
            (strBytes "GET / HTTP/1.1\r\nHost: h\r\n\r\n")),
         NetEvent.conn (Except.ok (strBytes "POST /x HTTP/1.1\r\n"))] =
      Except.ok ([ConnResult.dispatched 0], some "io error") := by
  rfl

/-- Claim C9 as amended: a bind failure is the startup error; a failing
fallback resource never stops startup (run still enters the serve loop),
and the fallback read failure surfaces during serving, the moment an
unmatched connection is handled. -/
theorem C9_amended_thm (s : Server) (fb : Except String String)
    (events : List NetEvent) (e : String) (buf : List Nat)
    (rest : List NetEvent) (eps : List Handler) :
    Server.run s (Except.error e) fb events = Except.error e ∧
      (∃ res, Server.run s (Except.ok ()) fb events = Except.ok res) ∧
      (findRoute eps buf = none →
        serveLoop eps (Except.error e)
            (NetEvent.conn (Except.ok buf) :: rest) = ([], some e)) := by
  refine ⟨rfl, ⟨_, rfl⟩, ?_⟩
  intro hm
  simp [serveLoop, handleConn, hm]

/-- Witness for the amended Claim C9 at a concrete unmatched buffer. -/
theorem C9_witness :
    serveLoop [] (Except.error "io") [NetEvent.conn (Except.ok [])] =
      ([], some "io") :=
  (C9_amended_thm (Server.new "" 0) (Except.ok "") [] "io" [] [] []).2.2 rfl

/-- Claim C10: Server::new stores max(pool_size, 2) as the pool size,
leaves the address as given and the route list empty, and run therefore
always builds a pool with at least 2 workers. -/
theorem C10_clamp (addr : String) (n : Nat) :
    (Server.new addr n).pool_size = Nat.max n 2 ∧
      (Server.new addr n).addr = addr ∧
      (Server.new addr n).end_points = [] ∧
      2 ≤ (Server.new addr n).pool_size ∧
      ((Server.new addr n).runPool).workers.length = Nat.max n 2 ∧
      2 ≤ ((Server.new addr n).runPool).workers.length := by
  refine ⟨rfl, rfl, rfl, Nat.le_max_right n 2, ?_, ?_⟩ <;>
    simp [Server.runPool, ThreadPool.new, Server.new, Nat.le_max_right]
